import Mathlib

/-!
# Verification of the Task/Command data model of `renode-linux-runner-action`

Shallow embedding of `src/action/command.py`: the `Command` and `Task`
dataclasses, the `${{name}}` variable resolver, policy inheritance
(`_apply_task_properties`), and construction from structured records
(`load_from_dict` via `dacite.from_dict`, `load_from_yaml`,
`from_multiline_string`).

Python dictionaries with string keys are modelled as association lists
whose lookup returns the first binding; the Python merge `a | b` (right
operand's value wins on a shared key) is modelled as list concatenation
with the right operand in front.  Recursive scanners are written with an
explicit fuel argument (initialised to the scanned list's length, an upper
bound on the number of steps, since every step consumes at least one
character) so that every definition is structurally recursive and
evaluates by kernel reduction.
-/

set_option autoImplicit false

/-- Decidable equality on `Except`, used to evaluate the embedded
operations at concrete inputs. -/
instance {ε α : Type} [DecidableEq ε] [DecidableEq α] : DecidableEq (Except ε α) := fun x y =>
  match x, y with
  | Except.ok a, Except.ok b =>
      if h : a = b then Decidable.isTrue (by rw [h])
      else Decidable.isFalse (fun hh => h (Except.ok.inj hh))
  | Except.error a, Except.error b =>
      if h : a = b then Decidable.isTrue (by rw [h])
      else Decidable.isFalse (fun hh => h (Except.error.inj hh))
  | Except.ok _, Except.error _ => Decidable.isFalse (fun hh => Except.noConfusion hh)
  | Except.error _, Except.ok _ => Decidable.isFalse (fun hh => Except.noConfusion hh)

namespace RenodeAction

/-- A Python `Dict[str, str]` variable scope, as an association list.
Lookup takes the first binding; call sites never build duplicate keys. -/
def Dict : Type := List (String × String)

instance : Repr Dict := inferInstanceAs (Repr (List (String × String)))

instance : DecidableEq Dict := inferInstanceAs (DecidableEq (List (String × String)))

/-- Python `d[k]` / `k in d` on a string-valued dict: the first binding wins. -/
def Dict.get (d : Dict) (k : String) : Option String :=
  (List.find? (fun p => p.1 == k) d).map (fun p => p.2)

/-- Python `a | b` on dicts: all keys of both, `b`'s value winning on a
shared key.  Putting `b` first makes `Dict.get` (first match) agree. -/
def Dict.merge (a b : Dict) : Dict := List.append b a

theorem Dict.get_merge (a b : Dict) (k : String) :
    Dict.get (Dict.merge a b) k = (Dict.get b k).or (Dict.get a k) := by
  unfold Dict.merge
  induction b with
  | nil => simp [Dict.get]
  | cons p rest ih =>
      by_cases h : p.1 = k
      · simp [Dict.get, List.find?, h]
      · have hb : (p.1 == k) = false := by simpa using h
        simpa [Dict.get, List.find?, hb] using ih

/-- The Python `Command` dataclass (`src/action/command.py` lines 26-37):
a shell command with optional per-command policy overrides.  Python's
`int | None` / `bool | None` / `str | None` become `Option`; the dataclass
defaults are the Lean default field values (`timeout` defaults to the
sentinel `-1`, the booleans and `expect` to `None`). -/
structure Command where
  command : String := ""
  expect : Option String := none
  timeout : Option Int := some (-1)
  echo : Option Bool := none
  check_exit_code : Option Bool := none
  should_fail : Option Bool := none
  deriving Repr, DecidableEq

/-- Python's `\s` in a `str` pattern: re delegates to
`Py_UNICODE_ISSPACE` (the same predicate as `str.isspace` on one
character), i.e. U+0009-U+000D, U+001C-U+001F, space, NEL (U+0085),
NBSP (U+00A0), Ogham space (U+1680), the U+2000-U+200A spaces, the line
and paragraph separators (U+2028, U+2029), U+202F, U+205F and the
ideographic space U+3000. -/
def isPySpace (c : Char) : Bool :=
  c == ' ' || c == '\t' || c == '\n' || c == '\r' || c == '\x0b' || c == '\x0c' ||
    c == '\x1c' || c == '\x1d' || c == '\x1e' || c == '\x1f' ||
    c == '\u0085' || c == '\u00a0' || c == '\u1680' ||
    ('\u2000' ≤ c && c ≤ '\u200a') ||
    c == '\u2028' || c == '\u2029' || c == '\u202f' || c == '\u205f' || c == '\u3000'

/-- A character of the regex class `[\sa-zA-Z0-9_\-]` used by the
placeholder pattern in `Command.apply_vars`: Python's Unicode-aware `\s`
(see `isPySpace`), ASCII letters and digits, underscore, hyphen. -/
def isVarChar (c : Char) : Bool :=
  c.isAlphanum || c == '_' || c == '-' || isPySpace c

/-- One match of the placeholder regex: `pattern` is the whole matched
text (`match[0]`), `name` the capture group (`match[1]`, NOT trimmed). -/
structure VarMatch where
  pattern : String
  name : String
  deriving Repr, DecidableEq

/-- Scanner for `re.finditer(r"\$\{\{([\sa-zA-Z0-9_\-]*)\}\}", s)`:
left-to-right, non-overlapping matches.  The character class excludes `}`,
so the greedy `*` is exactly the maximal run of class characters and must
be followed by the literal `}}`; when that fails, the scan resumes after
the `$` (no later match can start inside `{{` + run, which contains no
`$`).  `fuel` bounds the number of steps. -/
def findMatchesFuel : Nat → List Char → List VarMatch
  | 0, _ => []
  | fuel + 1, s =>
      match s with
      | '$' :: '\x7b' :: '\x7b' :: rest =>
          match rest.dropWhile isVarChar with
          | '\x7d' :: '\x7d' :: tail =>
              let run := rest.takeWhile isVarChar
              { pattern := String.mk ('$' :: '\x7b' :: '\x7b' :: (run ++ ['\x7d', '\x7d'])),
                name := String.mk run } :: findMatchesFuel fuel tail
          | _ => findMatchesFuel fuel ('\x7b' :: '\x7b' :: rest)
      | _ :: rest => findMatchesFuel fuel rest
      | [] => []

/-- All matches of the placeholder regex over a command string. -/
def findMatches (s : List Char) : List VarMatch :=
  findMatchesFuel s.length s

/-- Python `s.replace(pat, rep)` for a non-empty `pat`: replace all
non-overlapping occurrences, left to right.  `fuel` bounds the steps. -/
def replaceFuel (pat rep : List Char) : Nat → List Char → List Char
  | 0, s => s
  | fuel + 1, s =>
      match s with
      | [] => []
      | c :: rest =>
          if pat.isPrefixOf (c :: rest)
          then rep ++ replaceFuel pat rep fuel ((c :: rest).drop pat.length)
          else c :: replaceFuel pat rep fuel rest

/-- Python `s.replace(pat, rep)`.  An empty pattern inserts `rep` at every
character boundary (`"ab".replace("", "-") = "-a-b-"`); the resolver's
call sites always pass a pattern starting with `"${{"`. -/
def pyReplace (s pat rep : String) : String :=
  if pat.data.isEmpty
  then String.mk (rep.data ++ s.data.flatMap (fun c => c :: rep.data))
  else String.mk (replaceFuel pat.data rep.data s.data.length s.data)

/-- The loop body of `Command.apply_vars` (lines 78-85): for each match of
the scan, if the name is a key of `vars`, globally replace the matched
pattern text in the current command, else call `error(...)`.  `error`
lives in `common.py`, which is outside `src/`; modelled from the spec:
`error` aborts the whole run fatally, here the `Except.error` branch. -/
def substMatches (vars : Dict) : String → List VarMatch → Except String String
  | cmd, [] => Except.ok cmd
  | cmd, m :: rest =>
      match Dict.get vars m.name with
      | some v => substMatches vars (pyReplace cmd m.pattern v) rest
      | none => Except.error ("Variable " ++ m.name ++ " not found!")

/-- Embeds `Command.apply_vars` (lines 67-85): scan the original command string
for all placeholder matches, then substitute each in turn; an undefined
variable aborts.  On success only `self.command` has been reassigned. -/
def Command.apply_vars (c : Command) (vars : Dict) : Except String Command :=
  (substMatches vars c.command (findMatches c.command.data)).map
    (fun s => { c with command := s })

/-- A Python scalar value as stored in `Command`'s policy fields
(`str`, `int`, `bool`, `None`). -/
inductive PyScalar where
  | pstr (s : String)
  | pint (i : Int)
  | pbool (b : Bool)
  | pnone
  deriving Repr, DecidableEq

/-- Python `==` on the scalar values compared by `_apply_task_properties`.
`bool` is a subclass of `int` in Python, so `True == 1` and `False == 0`. -/
def pyEq : PyScalar → PyScalar → Bool
  | PyScalar.pstr a, PyScalar.pstr b => a == b
  | PyScalar.pint a, PyScalar.pint b => a == b
  | PyScalar.pbool a, PyScalar.pbool b => a == b
  | PyScalar.pbool a, PyScalar.pint b => (if a then (1 : Int) else 0) == b
  | PyScalar.pint a, PyScalar.pbool b => a == (if b then (1 : Int) else 0)
  | PyScalar.pnone, PyScalar.pnone => true
  | _, _ => false

/-- The field names `_apply_task_properties` receives as its `keys`
argument (Python passes plain strings; the caller only ever names
`Command`'s fields, enumerated here). -/
inductive CField where
  | fcommand
  | fexpect
  | ftimeout
  | fecho
  | fcheck_exit_code
  | fshould_fail
  deriving Repr, DecidableEq

/-- Embeds `Command.__getitem__` / `getattr(self, item)`. -/
def Command.getF (c : Command) : CField → PyScalar
  | CField.fcommand => PyScalar.pstr c.command
  | CField.fexpect => match c.expect with
      | some s => PyScalar.pstr s
      | none => PyScalar.pnone
  | CField.ftimeout => match c.timeout with
      | some i => PyScalar.pint i
      | none => PyScalar.pnone
  | CField.fecho => match c.echo with
      | some b => PyScalar.pbool b
      | none => PyScalar.pnone
  | CField.fcheck_exit_code => match c.check_exit_code with
      | some b => PyScalar.pbool b
      | none => PyScalar.pnone
  | CField.fshould_fail => match c.should_fail with
      | some b => PyScalar.pbool b
      | none => PyScalar.pnone

/-- Embeds `Command.__setitem__` / `setattr(self, key, item)`.  Python's setattr
is untyped; the embedded call sites only assign values of the field's
dataclass type (they come from `Task`'s typed fields), so an ill-typed
assignment is unreachable and leaves the command unchanged. -/
def Command.setF (c : Command) : CField → PyScalar → Command
  | CField.fcommand, PyScalar.pstr s => { c with command := s }
  | CField.fexpect, PyScalar.pstr s => { c with expect := some s }
  | CField.fexpect, PyScalar.pnone => { c with expect := none }
  | CField.ftimeout, PyScalar.pint i => { c with timeout := some i }
  | CField.ftimeout, PyScalar.pnone => { c with timeout := none }
  | CField.fecho, PyScalar.pbool b => { c with echo := some b }
  | CField.fecho, PyScalar.pnone => { c with echo := none }
  | CField.fcheck_exit_code, PyScalar.pbool b => { c with check_exit_code := some b }
  | CField.fcheck_exit_code, PyScalar.pnone => { c with check_exit_code := none }
  | CField.fshould_fail, PyScalar.pbool b => { c with should_fail := some b }
  | CField.fshould_fail, PyScalar.pnone => { c with should_fail := none }
  | _, _ => c

/-- The loop of `Command._apply_task_properties` (lines 45-50) over the
zipped `(key, default, task_value)` triples:
`self[key] = task_values[it] if self[key] == defaults[it] else self[key]`. -/
def applyTaskPropsLoop (c : Command) : List (CField × PyScalar × PyScalar) → Command
  | [] => c
  | (key, dflt, tv) :: rest =>
      applyTaskPropsLoop (if pyEq (c.getF key) dflt then c.setF key tv else c) rest

/-- Embeds `Command._apply_task_properties(keys, defaults, task_values)`: Python
iterates `enumerate(keys)` indexing into the two value lists; the call
site passes lists of equal length, modelled by zipping. -/
def Command.apply_task_properties (c : Command)
    (keys : List CField) (defaults task_values : List PyScalar) : Command :=
  applyTaskPropsLoop c (keys.zip (defaults.zip task_values))

/-- The Python `Task` dataclass (`src/action/command.py` lines 88-111). -/
structure Task where
  name : String
  shell : String
  requires : List String := []
  before : List String := []
  echo : Bool := false
  timeout : Option Int := none
  fail_fast : Bool := true
  check_exit_code : Bool := true
  should_fail : Bool := false
  sleep : Int := 0
  disabled : Bool := false
  commands : List Command := []
  vars : Dict := []
  deriving Repr, DecidableEq

/-- Embeds `Task.apply_vars` (lines 113-122): resolve every command against the
merged scope `default_vars | self.vars | override_variables`.  Python
mutates the commands in place and `error` aborts on the first failure;
modelled as `mapM`, which returns the updated commands or the first
error. -/
def Task.apply_vars (t : Task) (default_vars override_variables : Dict) :
    Except String (List Command) :=
  t.commands.mapM
    (fun c => c.apply_vars (Dict.merge (Dict.merge default_vars t.vars) override_variables))

/-- The `Task` value of a policy field, as passed by the dispatcher to
`_apply_task_properties` (`Task.timeout` is `int | None`). -/
def taskTimeoutScalar : Option Int → PyScalar
  | some i => PyScalar.pint i
  | none => PyScalar.pnone

/-- Modelled from the spec: the dispatcher (`dispatcher.py`, not under
`src/`) "resolves effective policy by taking the command's own value when
explicitly overridden, otherwise the owning task's default for that
field"; it does so by calling `_apply_task_properties` with the policy
fields `timeout`, `echo`, `check_exit_code`, `should_fail`, their
`Command` dataclass defaults as the unset markers, and the owning task's
values for those fields. -/
def Command.applyPolicyFrom (c : Command) (t : Task) : Command :=
  c.apply_task_properties
    [CField.ftimeout, CField.fecho, CField.fcheck_exit_code, CField.fshould_fail]
    [PyScalar.pint (-1), PyScalar.pnone, PyScalar.pnone, PyScalar.pnone]
    [taskTimeoutScalar t.timeout, PyScalar.pbool t.echo,
      PyScalar.pbool t.check_exit_code, PyScalar.pbool t.should_fail]

/-- A Python value as produced by `yaml.safe_load` or passed in a
structured record: scalars, lists, string-keyed dicts, and (after the
rewriting step in `load_from_yaml` / `from_multiline_string`) constructed
`Command` objects. -/
inductive PyVal where
  | vStr (s : String)
  | vInt (i : Int)
  | vBool (b : Bool)
  | vNone
  | vList (xs : List PyVal)
  | vDict (entries : List (String × PyVal))
  | vCommand (c : Command)

/-- A Python `Dict[str, Any]`, as an association list (first binding
wins, mirroring `pyGet`). -/
def PyDict : Type := List (String × PyVal)

/-- Python `d.get(k)` / `k in d.keys()`. -/
def pyGet (d : PyDict) (k : String) : Option PyVal :=
  (List.find? (fun p => p.1 == k) d).map (fun p => p.2)

/-- Python `d[k] = v`: overwrite the existing binding, else append. -/
def pySet (d : PyDict) (k : String) (v : PyVal) : PyDict :=
  if (List.find? (fun p => p.1 == k) d).isSome
  then d.map (fun p => if p.1 == k then (k, v) else p)
  else List.append d [(k, v)]

/-- Python truthiness (`not value` is `!pyFalsy`): `None`, `""`, `0`,
`False`, and empty containers are falsy. -/
def pyFalsy : PyVal → Bool
  | PyVal.vNone => true
  | PyVal.vStr s => s == ""
  | PyVal.vInt i => i == 0
  | PyVal.vBool b => !b
  | PyVal.vList xs => xs.isEmpty
  | PyVal.vDict es => es.isEmpty
  | PyVal.vCommand _ => false

/-- Python `not dict.get("command")`: missing key gives `None`, which is falsy. -/
def pyFalsyGet (v : Option PyVal) : Bool :=
  match v with
  | none => true
  | some v => pyFalsy v

/-- Embeds `Command.load_from_dict`'s key normalization: the computed
`name_map = {name: name for name in dict.keys()} | {"check-exit-code":
"check_exit_code", "should-fail": "should_fail"}` acts on each key of the
record as this function. -/
def cmdKeyMap (k : String) : String :=
  if k == "check-exit-code" then "check_exit_code"
  else if k == "should-fail" then "should_fail"
  else k

/-- Embeds `Task.load_from_dict`'s key normalization (also `fail-fast`). -/
def taskKeyMap (k : String) : String :=
  if k == "fail-fast" then "fail_fast"
  else if k == "check-exit-code" then "check_exit_code"
  else if k == "should-fail" then "should_fail"
  else k

/-- The dict comprehension `{name_map[name]: value for name, value in
dict.items()}`: build a fresh dict, inserting the renamed keys in
iteration order (a later duplicate overwrites an earlier one). -/
def mapKeysLoop (f : String → String) : PyDict → PyDict → PyDict
  | acc, [] => acc
  | acc, (k, v) :: rest => mapKeysLoop f (pySet acc (f k) v) rest

/-- Key-normalize a record (see `mapKeysLoop`). -/
def mapKeys (f : String → String) (d : PyDict) : PyDict :=
  mapKeysLoop f [] d

/-- The exceptions construction can raise: dacite's `WrongTypeError` and
`MissingValueError`, Python `AttributeError` / `TypeError` on records of
the wrong shape, the fatal `common.error` abort (modelled from the spec:
`common.py` is not under `src/`; the spec calls it a fatal configuration
error), and `yaml.YAMLError`. -/
inductive LoadError where
  | wrongType (fieldName : String)
  | missingValue (fieldName : String)
  | attrError
  | typeError
  | configError (msg : String)
  | yamlError
  deriving Repr, DecidableEq

/-- dacite extraction of a required `str` field (no dataclass default). -/
def fieldStrReq (d : PyDict) (k : String) : Except LoadError String :=
  match pyGet d k with
  | none => Except.error (LoadError.missingValue k)
  | some (PyVal.vStr s) => Except.ok s
  | some _ => Except.error (LoadError.wrongType k)

/-- dacite extraction of a `str` field with a dataclass default. -/
def fieldStr (d : PyDict) (k : String) (dflt : String) : Except LoadError String :=
  match pyGet d k with
  | none => Except.ok dflt
  | some (PyVal.vStr s) => Except.ok s
  | some _ => Except.error (LoadError.wrongType k)

/-- dacite extraction of a `str | None` field. -/
def fieldOptStr (d : PyDict) (k : String) (dflt : Option String) :
    Except LoadError (Option String) :=
  match pyGet d k with
  | none => Except.ok dflt
  | some (PyVal.vStr s) => Except.ok (some s)
  | some PyVal.vNone => Except.ok none
  | some _ => Except.error (LoadError.wrongType k)

/-- dacite extraction of an `int | None` field.  `bool` is a subclass of
`int` in Python, so `isinstance(True, int)` holds and a boolean value is
accepted, comparing downstream as its integer value. -/
def fieldOptInt (d : PyDict) (k : String) (dflt : Option Int) :
    Except LoadError (Option Int) :=
  match pyGet d k with
  | none => Except.ok dflt
  | some (PyVal.vInt i) => Except.ok (some i)
  | some (PyVal.vBool b) => Except.ok (some (if b then 1 else 0))
  | some PyVal.vNone => Except.ok none
  | some _ => Except.error (LoadError.wrongType k)

/-- dacite extraction of a `bool | None` field (`isinstance(1, bool)` is
false, so an integer is rejected). -/
def fieldOptBool (d : PyDict) (k : String) (dflt : Option Bool) :
    Except LoadError (Option Bool) :=
  match pyGet d k with
  | none => Except.ok dflt
  | some (PyVal.vBool b) => Except.ok (some b)
  | some PyVal.vNone => Except.ok none
  | some _ => Except.error (LoadError.wrongType k)

/-- dacite extraction of a plain `bool` field. -/
def fieldBool (d : PyDict) (k : String) (dflt : Bool) : Except LoadError Bool :=
  match pyGet d k with
  | none => Except.ok dflt
  | some (PyVal.vBool b) => Except.ok b
  | some _ => Except.error (LoadError.wrongType k)

/-- dacite extraction of a plain `int` field (booleans accepted, being
`int` instances). -/
def fieldInt (d : PyDict) (k : String) (dflt : Int) : Except LoadError Int :=
  match pyGet d k with
  | none => Except.ok dflt
  | some (PyVal.vInt i) => Except.ok i
  | some (PyVal.vBool b) => Except.ok (if b then 1 else 0)
  | some _ => Except.error (LoadError.wrongType k)

/-- Elementwise `isinstance(x, str)` check of a `list[str]` value. -/
def asStrList : List PyVal → Option (List String)
  | [] => some []
  | PyVal.vStr s :: rest => (asStrList rest).map (fun l => s :: l)
  | _ => none

/-- Elementwise check of a `list[Command]` value (the entries are the
`Command` objects installed by the callers before `dacite.from_dict`). -/
def asCommandList : List PyVal → Option (List Command)
  | [] => some []
  | PyVal.vCommand c :: rest => (asCommandList rest).map (fun l => c :: l)
  | _ => none

/-- Valuewise `isinstance(v, str)` check of a `Dict[str, str]` value. -/
def asStrPairs : List (String × PyVal) → Option Dict
  | [] => some []
  | (k, PyVal.vStr s) :: rest => (asStrPairs rest).map (fun l => (k, s) :: l)
  | _ => none

/-- dacite extraction of a `list[str]` field. -/
def fieldStrList (d : PyDict) (k : String) : Except LoadError (List String) :=
  match pyGet d k with
  | none => Except.ok []
  | some (PyVal.vList xs) =>
      match asStrList xs with
      | some l => Except.ok l
      | none => Except.error (LoadError.wrongType k)
  | some _ => Except.error (LoadError.wrongType k)

/-- dacite extraction of the `list[Command]` field. -/
def fieldCommandList (d : PyDict) (k : String) : Except LoadError (List Command) :=
  match pyGet d k with
  | none => Except.ok []
  | some (PyVal.vList xs) =>
      match asCommandList xs with
      | some l => Except.ok l
      | none => Except.error (LoadError.wrongType k)
  | some _ => Except.error (LoadError.wrongType k)

/-- dacite extraction of the `Dict[str, str]` field `vars`. -/
def fieldStrDict (d : PyDict) (k : String) : Except LoadError Dict :=
  match pyGet d k with
  | none => Except.ok []
  | some (PyVal.vDict es) =>
      match asStrPairs es with
      | some l => Except.ok l
      | none => Except.error (LoadError.wrongType k)
  | some _ => Except.error (LoadError.wrongType k)

/-- Embeds `dacite.from_dict(data_class=Command, data=...)` with the default
config: fields are read by name in declaration order, type-checked with
`isinstance`, filled from the dataclass default when absent; keys that
name no field are silently ignored (`strict=False` is dacite's default). -/
def daciteCommand (d : PyDict) : Except LoadError Command := do
  let command ← fieldStr d "command" ""
  let expect ← fieldOptStr d "expect" none
  let timeout ← fieldOptInt d "timeout" (some (-1))
  let echo ← fieldOptBool d "echo" none
  let cec ← fieldOptBool d "check_exit_code" none
  let sf ← fieldOptBool d "should_fail" none
  Except.ok { command := command, expect := expect, timeout := timeout,
              echo := echo, check_exit_code := cec, should_fail := sf }

/-- The `elif not dict.get("command"): dict["command"] = ""` step of
`Command.load_from_dict`. -/
def fillCommandKey (d : PyDict) : PyDict :=
  if pyFalsyGet (pyGet d "command")
  then pySet d "command" (PyVal.vStr "")
  else d

/-- Embeds `Command.load_from_dict` (lines 52-65): a bare string is sugar for
`{"command": s}`; a record with a missing or falsy `command` gets
`command = ""`; keys are normalized via `name_map` and handed to dacite.
Any other argument type hits `dict.get` and raises `AttributeError`. -/
def Command.load_from_dict : PyVal → Except LoadError Command
  | PyVal.vStr s => daciteCommand (mapKeys cmdKeyMap [("command", PyVal.vStr s)])
  | PyVal.vDict d => daciteCommand (mapKeys cmdKeyMap (fillCommandKey d))
  | _ => Except.error LoadError.attrError

/-- Embeds `dacite.from_dict(data_class=Task, data=...)` with the default
config; `name` and `shell` have no dataclass default and are required. -/
def daciteTask (d : PyDict) : Except LoadError Task := do
  let name ← fieldStrReq d "name"
  let shell ← fieldStrReq d "shell"
  let requires ← fieldStrList d "requires"
  let before ← fieldStrList d "before"
  let echo ← fieldBool d "echo" false
  let timeout ← fieldOptInt d "timeout" none
  let fail_fast ← fieldBool d "fail_fast" true
  let cec ← fieldBool d "check_exit_code" true
  let sf ← fieldBool d "should_fail" false
  let sleep ← fieldInt d "sleep" 0
  let disabled ← fieldBool d "disabled" false
  let commands ← fieldCommandList d "commands"
  let vars ← fieldStrDict d "vars"
  Except.ok { name := name, shell := shell, requires := requires, before := before,
              echo := echo, timeout := timeout, fail_fast := fail_fast,
              check_exit_code := cec, should_fail := sf, sleep := sleep,
              disabled := disabled, commands := commands, vars := vars }

/-- Embeds `Task.load_from_dict` (lines 124-133): normalize the hyphenated key
spellings and hand the record to dacite. -/
def Task.load_from_dict (d : PyDict) : Except LoadError Task :=
  daciteTask (mapKeys taskKeyMap d)

/-- Python iteration over `obj.get("commands", [])`: a list yields its
elements, a string its characters, a dict its keys; anything else raises
`TypeError`. -/
def pyIter : PyVal → Except LoadError (List PyVal)
  | PyVal.vList xs => Except.ok xs
  | PyVal.vStr s => Except.ok (s.data.map (fun c => PyVal.vStr (String.mk [c])))
  | PyVal.vDict es => Except.ok (es.map (fun p => PyVal.vStr p.1))
  | _ => Except.error LoadError.typeError

/-- Python `obj.update(overrides)`: assign each override binding in
order. -/
def pyUpdate (d overrides : PyDict) : PyDict :=
  overrides.foldl (fun acc kv => pySet acc kv.1 kv.2) d

/-- The iterable `obj.get("commands", [])` of `Task.load_from_yaml`. -/
def yamlCommandsEntries (d : PyDict) : Except LoadError (List PyVal) :=
  match pyGet d "commands" with
  | none => Except.ok []
  | some v => pyIter v

/-- The list comprehension `[Command.load_from_dict(com) for com in ...]`:
build each `Command` in order, the first exception propagating. -/
def loadCommands : List PyVal → Except LoadError (List Command)
  | [] => Except.ok []
  | com :: rest => do
      let c ← Command.load_from_dict com
      let cs ← loadCommands rest
      Except.ok (c :: cs)

/-- Embeds `Task.load_from_yaml` (lines 135-160), taking the result of the
external `yaml.safe_load` as a `PyVal`: a non-dict parse raises
`yaml.YAMLError`; the overrides are merged in (`obj.update(overrides)`);
a merged mapping without `name` aborts via `common.error` (modelled from
the spec as a fatal configuration error); then each entry of
`obj.get("commands", [])` is turned into a `Command` and the record is
handed to `Task.load_from_dict`. -/
def Task.load_from_yaml (obj : PyVal) (overrides : PyDict) : Except LoadError Task :=
  match obj with
  | PyVal.vDict d =>
      let d := pyUpdate d overrides
      if (pyGet d "name").isNone
      then Except.error
        (LoadError.configError "Task description file must at least contain a 'name' field")
      else do
        let entries ← yamlCommandsEntries d
        let cmds ← loadCommands entries
        Task.load_from_dict (pySet d "commands" (PyVal.vList (cmds.map PyVal.vCommand)))
  | _ => Except.error LoadError.yamlError

/-- The field names of the `Command` dataclass, in declaration order. -/
def commandFieldNames : List String :=
  ["command", "expect", "timeout", "echo", "check_exit_code", "should_fail"]

/-- The field names of the `Task` dataclass, in declaration order. -/
def taskFieldNames : List String :=
  ["name", "shell", "requires", "before", "echo", "timeout", "fail_fast",
    "check_exit_code", "should_fail", "sleep", "disabled", "commands", "vars"]

/-- The value the last entry of `d` whose key normalizes (under `f`) to
`key` carries, if any: this is the binding `mapKeys f d` ends up with. -/
def lastValueFor (f : String → String) (key : String) (d : PyDict) : Option PyVal :=
  (List.find? (fun p => f p.1 == key) d.reverse).map (fun p => p.2)

/-- Shape of a value accepted for a `str | None` field. -/
def optStrOk : Option PyVal → Bool
  | none => true
  | some (PyVal.vStr _) => true
  | some PyVal.vNone => true
  | _ => false

/-- Shape of a value accepted for an `int | None` field. -/
def optIntOk : Option PyVal → Bool
  | none => true
  | some (PyVal.vInt _) => true
  | some (PyVal.vBool _) => true
  | some PyVal.vNone => true
  | _ => false

/-- Shape of a value accepted for a `bool | None` field. -/
def optBoolOk : Option PyVal → Bool
  | none => true
  | some (PyVal.vBool _) => true
  | some PyVal.vNone => true
  | _ => false

/-- A line-break character for `str.splitlines` (Python also breaks on
`\v`, `\f`, the ASCII separators, NEL and the Unicode line separators). -/
def isLineBreak (c : Char) : Bool :=
  c == '\n' || c == '\r' || c == '\x0b' || c == '\x0c' ||
    c == '\x1c' || c == '\x1d' || c == '\x1e' ||
    c == '\u0085' || c == '\u2028' || c == '\u2029'

/-- Python `str.splitlines`: split at line breaks (`\r\n` counts as one break);
a trailing break does not produce a final empty line. -/
def splitlinesAux : List Char → List Char → List String
  | [], acc => if acc.isEmpty then [] else [String.mk acc.reverse]
  | '\r' :: '\n' :: rest, acc => String.mk acc.reverse :: splitlinesAux rest []
  | c :: rest, acc =>
      if isLineBreak c then String.mk acc.reverse :: splitlinesAux rest []
      else splitlinesAux rest (c :: acc)

/-- Python `string.splitlines()`. -/
def splitlines (s : String) : List String :=
  splitlinesAux s.data []

/-- Embeds `Task.from_multiline_string` (lines 162-179): install `name`, build
one `Command(command=line)` for EVERY line of `string.splitlines()`
(empty lines included — the comprehension does not filter), and hand the
record to `Task.load_from_dict`. -/
def Task.from_multiline_string (name : String) (string : String) (params : PyDict) :
    Except LoadError Task :=
  let params := pySet params "name" (PyVal.vStr name)
  let params := pySet params "commands"
    (PyVal.vList ((splitlines string).map (fun com => PyVal.vCommand { command := com })))
  Task.load_from_dict params

/-! ## Supporting lemmas about the embedded dictionary operations -/

instance : Membership (String × PyVal) PyDict :=
  inferInstanceAs (Membership (String × PyVal) (List (String × PyVal)))

theorem find?_overwrite (k : String) (v : PyVal) (d : List (String × PyVal)) :
    List.find? (fun p => p.1 == k)
        (d.map (fun p => if p.1 == k then (k, v) else p))
      = (List.find? (fun p => p.1 == k) d).map (fun _ => (k, v)) := by
  induction d with
  | nil => rfl
  | cons q rest ih =>
      by_cases hq : (q.1 == k) = true
      · rw [List.map_cons, if_pos hq]
        simp only [List.find?_cons, beq_self_eq_true, cond_true, hq]
        rfl
      · have hq' : (q.1 == k) = false := by simpa using hq
        rw [List.map_cons, if_neg hq]
        simp only [List.find?_cons, hq', cond_false]
        exact ih

theorem find?_overwrite_other (k key : String) (hk : key ≠ k) (v : PyVal)
    (d : List (String × PyVal)) :
    List.find? (fun p => p.1 == key)
        (d.map (fun p => if p.1 == k then (k, v) else p))
      = List.find? (fun p => p.1 == key) d := by
  induction d with
  | nil => rfl
  | cons q rest ih =>
      by_cases hq : (q.1 == k) = true
      · have hqk : q.1 = k := by simpa using hq
        have hqkey : (q.1 == key) = false := by
          rw [hqk]
          exact beq_eq_false_iff_ne.mpr (Ne.symm hk)
        have hkkey : (k == key) = false := beq_eq_false_iff_ne.mpr (Ne.symm hk)
        rw [List.map_cons, if_pos hq]
        simp only [List.find?_cons, hqkey, hkkey, cond_false]
        exact ih
      · rw [List.map_cons, if_neg hq]
        by_cases hqkey : (q.1 == key) = true
        · simp only [List.find?_cons, hqkey, cond_true]
        · have hqkey' : (q.1 == key) = false := by simpa using hqkey
          simp only [List.find?_cons, hqkey', cond_false]
          exact ih

theorem pyGet_pySet_same (d : PyDict) (k : String) (v : PyVal) :
    pyGet (pySet d k v) k = some v := by
  unfold pySet
  by_cases h : (List.find? (fun p => p.1 == k) d).isSome
  · rw [if_pos h]
    obtain ⟨q, hq⟩ := Option.isSome_iff_exists.mp h
    unfold pyGet
    rw [find?_overwrite, hq]
    rfl
  · rw [if_neg h]
    have hn : List.find? (fun p => p.1 == k) d = none :=
      Option.not_isSome_iff_eq_none.mp h
    unfold pyGet
    rw [List.append_eq, List.find?_append, hn]
    simp [List.find?]

theorem pyGet_pySet_other (d : PyDict) (k key : String) (v : PyVal) (hk : key ≠ k) :
    pyGet (pySet d k v) key = pyGet d key := by
  unfold pySet
  by_cases h : (List.find? (fun p => p.1 == k) d).isSome
  · rw [if_pos h]
    unfold pyGet
    rw [find?_overwrite_other k key hk]
  · rw [if_neg h]
    unfold pyGet
    rw [List.append_eq, List.find?_append]
    have hkf : (k == key) = false := beq_eq_false_iff_ne.mpr (Ne.symm hk)
    have hkkey : List.find? (fun p : String × PyVal => p.1 == key) [(k, v)] = none := by
      simp [List.find?_cons, hkf]
    rw [hkkey]
    simp

theorem pySet_value_of_key (d : PyDict) (k : String) (v : PyVal) :
    ∀ p ∈ pySet d k v, p.1 = k → p.2 = v := by
  unfold pySet
  by_cases h : (List.find? (fun p => p.1 == k) d).isSome
  · rw [if_pos h]
    intro p hp hpk
    obtain ⟨q, hq, hqe⟩ := List.mem_map.mp hp
    by_cases hqk : (q.1 == k) = true
    · rw [if_pos hqk] at hqe
      rw [← hqe]
    · rw [if_neg hqk] at hqe
      subst hqe
      exact absurd (by simpa using hpk) hqk
  · rw [if_neg h]
    intro p hp hpk
    rcases List.mem_append.mp hp with hmem | hmem
    · have hnone : List.find? (fun p => p.1 == k) d = none :=
        Option.not_isSome_iff_eq_none.mp h
      have := List.find?_eq_none.mp hnone p hmem
      exact absurd (by simpa using hpk) this
    · have : p = (k, v) := by simpa using hmem
      rw [this]

theorem pySet_mem_key (d : PyDict) (k : String) (v : PyVal) :
    ∃ p ∈ pySet d k v, p.1 = k := by
  have h := pyGet_pySet_same d k v
  unfold pyGet at h
  cases hfind : List.find? (fun p => p.1 == k) (pySet d k v) with
  | none => rw [hfind] at h; simp at h
  | some q =>
      refine ⟨q, List.mem_of_find?_eq_some hfind, ?_⟩
      simpa using List.find?_some hfind

theorem map_or_option {α β : Type} (g : α → β) (a b : Option α) :
    Option.map g (a.or b) = (Option.map g a).or (Option.map g b) := by
  cases a <;> rfl

theorem lastValueFor_cons (f : String → String) (key : String) (p : String × PyVal)
    (d : PyDict) :
    lastValueFor f key (p :: d)
      = (lastValueFor f key d).or (if f p.1 == key then some p.2 else none) := by
  unfold lastValueFor
  show Option.map _ (List.find? _ (List.reverse (p :: d))) = _
  rw [List.reverse_cons, List.find?_append, map_or_option]
  cases hp : (f p.1 == key) with
  | true => simp [List.find?_cons, hp]
  | false => simp [List.find?_cons, hp]

theorem pyGet_mapKeysLoop (f : String → String) (key : String) :
    ∀ (d : List (String × PyVal)) (acc : PyDict),
      pyGet (mapKeysLoop f acc d) key = (lastValueFor f key d).or (pyGet acc key) := by
  intro d
  induction d with
  | nil =>
      intro acc
      have : lastValueFor f key [] = none := rfl
      rw [this]
      rfl
  | cons p rest ih =>
      intro acc
      show pyGet (mapKeysLoop f (pySet acc (f p.1) p.2) rest) key = _
      rw [ih, lastValueFor_cons, Option.or_assoc]
      cases hp : (f p.1 == key) with
      | true =>
          have hkey : key = f p.1 := by
            have := beq_iff_eq.mp hp
            exact this.symm
          rw [hkey, pyGet_pySet_same]
          simp
      | false =>
          have hkey : key ≠ f p.1 := by
            intro hcon
            rw [beq_eq_false_iff_ne] at hp
            exact hp hcon.symm
          rw [pyGet_pySet_other _ _ _ _ hkey]
          simp

theorem pyGet_mapKeys (f : String → String) (key : String) (d : PyDict) :
    pyGet (mapKeys f d) key = lastValueFor f key d := by
  unfold mapKeys
  rw [pyGet_mapKeysLoop]
  have : pyGet [] key = none := rfl
  rw [this]
  cases lastValueFor f key d <;> rfl

theorem find?_all_values {α : Type} (pr : (String × α) → Bool) (v : α) :
    ∀ l : List (String × α),
      (∀ p ∈ l, pr p = true → p.2 = v) → (∃ p ∈ l, pr p = true) →
      Option.map (fun p => p.2) (List.find? pr l) = some v := by
  intro l
  induction l with
  | nil =>
      intro _ hex
      simp at hex
  | cons a rest ih =>
      intro hall hex
      cases ha : pr a with
      | true =>
          rw [List.find?_cons, ha]
          simp [hall a (by simp) ha]
      | false =>
          rw [List.find?_cons, ha]
          refine ih (fun p hp hpr => hall p (by simp [hp]) hpr) ?_
          obtain ⟨p, hp, hpr⟩ := hex
          rcases List.mem_cons.mp hp with rfl | hp'
          · rw [ha] at hpr; exact absurd hpr (by simp)
          · exact ⟨p, hp', hpr⟩

theorem lastValueFor_pySet_hit (f : String → String) (key k : String) (v : PyVal)
    (d : PyDict) (hfk : f k = key) (hpre : ∀ k', f k' = key → k' = k) :
    lastValueFor f key (pySet d k v) = some v := by
  unfold lastValueFor
  refine find?_all_values _ v _ ?_ ?_
  · intro p hp hpr
    have hmem : p ∈ pySet d k v := List.mem_reverse.mp hp
    have hpk : p.1 = k := hpre p.1 (beq_iff_eq.mp hpr)
    exact pySet_value_of_key d k v p hmem hpk
  · obtain ⟨p, hp, hpk⟩ := pySet_mem_key d k v
    refine ⟨p, List.mem_reverse.mpr hp, ?_⟩
    rw [hpk, hfk]
    exact beq_self_eq_true key

theorem find?_congr_map {α : Type} (pr : α → Bool) (g : α → α)
    (h1 : ∀ p, pr (g p) = pr p) (h2 : ∀ p, pr p = true → g p = p) :
    ∀ l : List α, List.find? pr (l.map g) = List.find? pr l := by
  intro l
  induction l with
  | nil => rfl
  | cons a rest ih =>
      rw [List.map_cons, List.find?_cons, List.find?_cons, h1 a]
      cases ha : pr a with
      | true => simp [h2 a ha]
      | false => simpa using ih

theorem lastValueFor_pySet_miss (f : String → String) (key k : String) (v : PyVal)
    (d : PyDict) (h : f k ≠ key) :
    lastValueFor f key (pySet d k v) = lastValueFor f key d := by
  have hfkb : (f k == key) = false := beq_eq_false_iff_ne.mpr h
  unfold pySet
  by_cases hf : (List.find? (fun p => p.1 == k) d).isSome
  · rw [if_pos hf]
    unfold lastValueFor
    show Option.map _ (List.find? _ (List.reverse (List.map _ d))) = _
    rw [← List.map_reverse]
    rw [find?_congr_map]
    · intro p
      by_cases hp : (p.1 == k) = true
      · have : p.1 = k := beq_iff_eq.mp hp
        simp only [if_pos hp]
        show (f k == key) = (f p.1 == key)
        rw [this]
      · simp only [if_neg hp]
    · intro p hp
      by_cases hpk : (p.1 == k) = true
      · have : p.1 = k := beq_iff_eq.mp hpk
        rw [this] at hp
        rw [hp] at hfkb
        exact absurd hfkb (by simp)
      · simp only [if_neg hpk]
  · rw [if_neg hf]
    unfold lastValueFor
    show Option.map _ (List.find? _ (List.reverse (List.append d [(k, v)]))) = _
    rw [List.append_eq, List.reverse_append]
    show Option.map _ (List.find? _ ((k, v) :: List.reverse d)) = _
    rw [List.find?_cons]
    show Option.map _ (cond (f k == key) _ _) = _
    rw [hfkb]
    rfl

theorem exbind_ok {ε α β : Type} {x : Except ε α} {f : α → Except ε β} {b : β}
    (h : (x >>= f) = Except.ok b) : ∃ a, x = Except.ok a ∧ f a = Except.ok b := by
  cases x with
  | error e =>
      exfalso
      have he : (Except.error e : Except ε α) >>= f = Except.error e := rfl
      rw [he] at h
      exact Except.noConfusion h
  | ok a =>
      refine ⟨a, rfl, ?_⟩
      have ho : (Except.ok a : Except ε α) >>= f = f a := rfl
      rw [ho] at h
      exact h

theorem daciteTask_ok_commands (d : PyDict) (t : Task)
    (h : daciteTask d = Except.ok t) :
    fieldCommandList d "commands" = Except.ok t.commands := by
  unfold daciteTask at h
  obtain ⟨nm, h1, h⟩ := exbind_ok h
  obtain ⟨sh, h2, h⟩ := exbind_ok h
  obtain ⟨rq, h3, h⟩ := exbind_ok h
  obtain ⟨bf, h4, h⟩ := exbind_ok h
  obtain ⟨ec, h5, h⟩ := exbind_ok h
  obtain ⟨tm, h6, h⟩ := exbind_ok h
  obtain ⟨ff, h7, h⟩ := exbind_ok h
  obtain ⟨cc, h8, h⟩ := exbind_ok h
  obtain ⟨sf, h9, h⟩ := exbind_ok h
  obtain ⟨sl, h10, h⟩ := exbind_ok h
  obtain ⟨db, h11, h⟩ := exbind_ok h
  obtain ⟨cm, h12, h⟩ := exbind_ok h
  obtain ⟨vr, h13, h⟩ := exbind_ok h
  have ht := Except.ok.inj h
  rw [h12, ← ht]

theorem asCommandList_map (cs : List Command) :
    asCommandList (cs.map PyVal.vCommand) = some cs := by
  induction cs with
  | nil => rfl
  | cons c rest ih =>
      show (asCommandList (rest.map PyVal.vCommand)).map (fun l => c :: l) = _
      rw [ih]
      rfl

theorem fieldCommandList_of_vCommands (d : PyDict) (k : String) (cs : List Command)
    (h : pyGet d k = some (PyVal.vList (cs.map PyVal.vCommand))) :
    fieldCommandList d k = Except.ok cs := by
  unfold fieldCommandList
  rw [h]
  show (match asCommandList (cs.map PyVal.vCommand) with
        | some l => Except.ok l
        | none => Except.error (LoadError.wrongType k)) = Except.ok cs
  rw [asCommandList_map]

theorem taskKeyMap_to_commands (k : String) (h : taskKeyMap k = "commands") :
    k = "commands" := by
  unfold taskKeyMap at h
  split_ifs at h with h1 h2 h3
  · exact absurd h (by decide)
  · exact absurd h (by decide)
  · exact absurd h (by decide)
  · exact h

theorem cmdKeyMap_to_command (k : String) (h : cmdKeyMap k = "command") :
    k = "command" := by
  unfold cmdKeyMap at h
  split_ifs at h with h1 h2
  · exact absurd h (by decide)
  · exact absurd h (by decide)
  · exact h

theorem loadCommands_length (xs : List PyVal) :
    ∀ cs : List Command, loadCommands xs = Except.ok cs → cs.length = xs.length := by
  induction xs with
  | nil =>
      intro cs h
      have : cs = [] := (Except.ok.inj h).symm
      rw [this]
      rfl
  | cons x rest ih =>
      intro cs h
      unfold loadCommands at h
      obtain ⟨c, h1, h⟩ := exbind_ok h
      obtain ⟨cs', h2, h⟩ := exbind_ok h
      have : c :: cs' = cs := Except.ok.inj h
      rw [← this, List.length_cons, List.length_cons, ih cs' h2]

theorem substMatches_undefined (vars : Dict) :
    ∀ (ms : List VarMatch) (cmd : String),
      (∃ m ∈ ms, Dict.get vars m.name = none) →
      ∃ v, Dict.get vars v = none ∧
        substMatches vars cmd ms = Except.error ("Variable " ++ v ++ " not found!") := by
  intro ms
  induction ms with
  | nil =>
      intro cmd h
      simp at h
  | cons m rest ih =>
      intro cmd h
      cases hv : Dict.get vars m.name with
      | none =>
          refine ⟨m.name, hv, ?_⟩
          unfold substMatches
          rw [hv]
      | some v =>
          have hrest : ∃ m' ∈ rest, Dict.get vars m'.name = none := by
            obtain ⟨m', hm', hnone⟩ := h
            rcases List.mem_cons.mp hm' with rfl | hmem
            · rw [hv] at hnone
              exact Option.noConfusion hnone
            · exact ⟨m', hmem, hnone⟩
          obtain ⟨v', hv', heq⟩ := ih (pyReplace cmd m.pattern v) hrest
          refine ⟨v', hv', ?_⟩
          unfold substMatches
          rw [hv]
          exact heq

/-! ## Claim theorems -/

/-- Claim C1: For every command whose text contains a placeholder `${{name}}`
whose name is not a key of the merged variable scope, variable resolution
fails fatally: `apply_vars` aborts with an error naming the missing
variable (the `Except.error` branch models the fatal `common.error`
abort), rather than leaving the placeholder in place or dropping it. -/
theorem spec_c1_undefined_variable_fatal (c : Command) (vars : Dict)
    (h : ∃ m ∈ findMatches c.command.data, Dict.get vars m.name = none) :
    ∃ v, Dict.get vars v = none ∧
      Command.apply_vars c vars
        = Except.error ("Variable " ++ v ++ " not found!") := by
  obtain ⟨v, hv, heq⟩ :=
    substMatches_undefined vars (findMatches c.command.data) c.command h
  refine ⟨v, hv, ?_⟩
  unfold Command.apply_vars
  rw [heq]
  rfl

/-- Witness for C1 at the spec's own scenario: `echo ${{Y}}` with only
`X` defined aborts with an error naming `Y`. -/
theorem spec_c1_witness :
    ∃ v, Dict.get [("X", "hi")] v = none ∧
      Command.apply_vars { command := "echo $\x7b\x7bY\x7d\x7d" } [("X", "hi")]
        = Except.error ("Variable " ++ v ++ " not found!") :=
  spec_c1_undefined_variable_fatal { command := "echo $\x7b\x7bY\x7d\x7d" } [("X", "hi")] (by decide)

/-- Claim C2: `Task.apply_vars` resolves every command against the merged
scope `default_vars | self.vars | override_variables`, and in that merged
scope a per-run override value wins over the task value, which wins over
the global default. -/
theorem spec_c2_scope_precedence (t : Task) (g o : Dict) (k : String) :
    Task.apply_vars t g o
      = t.commands.mapM
          (fun c => c.apply_vars (Dict.merge (Dict.merge g t.vars) o)) ∧
    Dict.get (Dict.merge (Dict.merge g t.vars) o) k
      = (Dict.get o k).or ((Dict.get t.vars k).or (Dict.get g k)) := by
  refine ⟨rfl, ?_⟩
  rw [Dict.get_merge, Dict.get_merge]

/-- Claim C10: On success, `Command.apply_vars` changes only the `command`
field: `expect`, `timeout`, `echo`, `check_exit_code` and `should_fail`
are untouched by variable resolution. -/
theorem spec_c10_apply_vars_frame (c c' : Command) (vars : Dict)
    (h : Command.apply_vars c vars = Except.ok c') :
    c'.expect = c.expect ∧ c'.timeout = c.timeout ∧ c'.echo = c.echo ∧
      c'.check_exit_code = c.check_exit_code ∧ c'.should_fail = c.should_fail := by
  unfold Command.apply_vars at h
  cases hs : substMatches vars c.command (findMatches c.command.data) with
  | ok s =>
      rw [hs] at h
      have hmap : (Except.ok s : Except String String).map
          (fun s => { c with command := s }) = Except.ok { c with command := s } := rfl
      rw [hmap] at h
      have := Except.ok.inj h
      rw [← this]
      exact ⟨rfl, rfl, rfl, rfl, rfl⟩
  | error e =>
      rw [hs] at h
      have hmap : (Except.error e : Except String String).map
          (fun s => { c with command := s }) = Except.error e := rfl
      rw [hmap] at h
      exact Except.noConfusion h

theorem applyPolicyFrom_eq (c : Command) (t : Task) :
    c.applyPolicyFrom t =
      { command := c.command, expect := c.expect,
        timeout := if c.timeout = some (-1) then t.timeout else c.timeout,
        echo := if c.echo = none then some t.echo else c.echo,
        check_exit_code :=
          if c.check_exit_code = none then some t.check_exit_code else c.check_exit_code,
        should_fail := if c.should_fail = none then some t.should_fail else c.should_fail } := by
  rcases c with ⟨cmd, exp, tmo, ech, cec, sf⟩
  rcases tmo with _ | i <;> rcases ech with _ | eb <;> rcases cec with _ | cb <;>
    rcases sf with _ | sb <;> rcases htt : t.timeout with _ | j <;>
    simp [Command.applyPolicyFrom, Command.apply_task_properties, applyTaskPropsLoop,
      Command.getF, Command.setF, pyEq, taskTimeoutScalar, htt]
  all_goals (by_cases hi : i = -1 <;> simp [hi])

/-- Claim C3: After applying task properties (the dispatcher's policy
resolution through `_apply_task_properties`), each policy field holds the
command's own value exactly when that value differs from the field's
unset marker (`-1` for `timeout`, `None` for the three booleans — the
`Command` dataclass defaults), and the owning task's default otherwise;
`command` and `expect` are untouched. -/
theorem spec_c3_policy_inheritance (c : Command) (t : Task) :
    (c.applyPolicyFrom t).timeout
        = (if c.timeout = some (-1) then t.timeout else c.timeout) ∧
    (c.applyPolicyFrom t).echo = (if c.echo = none then some t.echo else c.echo) ∧
    (c.applyPolicyFrom t).check_exit_code
        = (if c.check_exit_code = none then some t.check_exit_code else c.check_exit_code) ∧
    (c.applyPolicyFrom t).should_fail
        = (if c.should_fail = none then some t.should_fail else c.should_fail) ∧
    (c.applyPolicyFrom t).command = c.command ∧
    (c.applyPolicyFrom t).expect = c.expect := by
  rw [applyPolicyFrom_eq]
  exact ⟨rfl, rfl, rfl, rfl, rfl, rfl⟩

/-- Witness for C10: a concrete resolution that keeps every policy field. -/
theorem spec_c10_witness :
    ({ command := "echo hi", echo := some true, timeout := some 7 } : Command).expect
        = ({ command := "echo $\x7b\x7bX\x7d\x7d", echo := some true, timeout := some 7 } : Command).expect ∧
    ({ command := "echo hi", echo := some true, timeout := some 7 } : Command).timeout
        = ({ command := "echo $\x7b\x7bX\x7d\x7d", echo := some true, timeout := some 7 } : Command).timeout ∧
    ({ command := "echo hi", echo := some true, timeout := some 7 } : Command).echo
        = ({ command := "echo $\x7b\x7bX\x7d\x7d", echo := some true, timeout := some 7 } : Command).echo ∧
    ({ command := "echo hi", echo := some true, timeout := some 7 } : Command).check_exit_code
        = ({ command := "echo $\x7b\x7bX\x7d\x7d", echo := some true, timeout := some 7 } : Command).check_exit_code ∧
    ({ command := "echo hi", echo := some true, timeout := some 7 } : Command).should_fail
        = ({ command := "echo $\x7b\x7bX\x7d\x7d", echo := some true, timeout := some 7 } : Command).should_fail :=
  spec_c10_apply_vars_frame
    { command := "echo $\x7b\x7bX\x7d\x7d", echo := some true, timeout := some 7 }
    { command := "echo hi", echo := some true, timeout := some 7 }
    [("X", "hi")] (by decide)

/-- Claim C6 counterexample: The claim says `${{ X }}` (with spaces) is
trimmed and resolved against the scope key `X`; in fact the captured name
`" X "` is looked up verbatim, so resolution aborts with an error naming
`" X "` instead of producing `echo hi`. -/
theorem spec_c6_counterexample :
    Command.apply_vars { command := "echo $\x7b\x7b X \x7d\x7d" } [("X", "hi")]
      = Except.error "Variable  X  not found!" ∧
    Command.apply_vars { command := "echo $\x7b\x7b X \x7d\x7d" } [("X", "hi")]
      ≠ Except.ok { command := "echo hi" } := by decide

/-- Claim C6 amended: The resolver does NOT trim the whitespace of a
placeholder name: the captured text, spaces included, is the lookup key,
so `${{ X }}` resolves exactly against the literal scope key `" X "`. -/
theorem spec_c6_amended (vars : Dict) (v : String)
    (h : Dict.get vars " X " = some v) :
    Command.apply_vars { command := "echo $\x7b\x7b X \x7d\x7d" } vars
      = Except.ok { command := "echo " ++ v } := by
  have hm : findMatches ("echo $\x7b\x7b X \x7d\x7d" : String).data
      = [{ pattern := "$\x7b\x7b X \x7d\x7d", name := " X " }] := by decide
  unfold Command.apply_vars
  show (substMatches vars "echo $\x7b\x7b X \x7d\x7d"
      (findMatches ("echo $\x7b\x7b X \x7d\x7d" : String).data)).map _ = _
  rw [hm]
  simp only [substMatches, h]
  have hr : pyReplace "echo $\x7b\x7b X \x7d\x7d" "$\x7b\x7b X \x7d\x7d" v = "echo " ++ v := by
    rcases v with ⟨data⟩
    simp [pyReplace, replaceFuel]
    rfl
  rw [hr]
  rfl

/-- Witness for the amended C6: with the literal key `" X "` in scope the
placeholder resolves. -/
theorem spec_c6_amended_witness :
    Command.apply_vars { command := "echo $\x7b\x7b X \x7d\x7d" } [(" X ", "hi")]
      = Except.ok { command := "echo " ++ "hi" } :=
  spec_c6_amended [(" X ", "hi")] "hi" (by decide)

/-- Claim C7 counterexample: The claim says placeholder-shaped text inside a
substituted value always survives verbatim; but each substitution is a
global textual replace, so with `A = "${{B}}"` the text injected for
`${{A}}` is rewritten again when the original string's `${{B}}` match is
processed, yielding `x x` instead of `${{B}} x`. -/
theorem spec_c7_counterexample :
    Command.apply_vars { command := "$\x7b\x7bA\x7d\x7d $\x7b\x7bB\x7d\x7d" } [("A", "$\x7b\x7bB\x7d\x7d"), ("B", "x")]
      = Except.ok { command := "x x" } ∧
    Command.apply_vars { command := "$\x7b\x7bA\x7d\x7d $\x7b\x7bB\x7d\x7d" } [("A", "$\x7b\x7bB\x7d\x7d"), ("B", "x")]
      ≠ Except.ok { command := "$\x7b\x7bB\x7d\x7d x" } := by decide

/-- Claim C7 amended: Resolution scans only the original command string:
a substituted value is never re-scanned for new matches, so any value —
placeholder-shaped or not — substituted for a command's sole placeholder
appears verbatim; only text equal to a placeholder the original string
itself matches can be rewritten by that later match's global replace. -/
theorem spec_c7_amended (vars : Dict) (v : String)
    (h : Dict.get vars "A" = some v) :
    Command.apply_vars { command := "$\x7b\x7bA\x7d\x7d" } vars = Except.ok { command := v } := by
  have hm : findMatches ("$\x7b\x7bA\x7d\x7d" : String).data
      = [{ pattern := "$\x7b\x7bA\x7d\x7d", name := "A" }] := by decide
  unfold Command.apply_vars
  show (substMatches vars "$\x7b\x7bA\x7d\x7d" (findMatches ("$\x7b\x7bA\x7d\x7d" : String).data)).map _ = _
  rw [hm]
  simp only [substMatches, h]
  have hr : pyReplace "$\x7b\x7bA\x7d\x7d" "$\x7b\x7bA\x7d\x7d" v = v := by
    rcases v with ⟨data⟩
    simp [pyReplace, replaceFuel]
  rw [hr]
  rfl

/-- Witness for the amended C7: a placeholder-shaped value (even a
self-referential one) is substituted verbatim, not resolved again. -/
theorem spec_c7_amended_witness :
    Command.apply_vars { command := "$\x7b\x7bA\x7d\x7d" } [("A", "$\x7b\x7bA\x7d\x7d")]
      = Except.ok { command := "$\x7b\x7bA\x7d\x7d" } :=
  spec_c7_amended [("A", "$\x7b\x7bA\x7d\x7d")] "$\x7b\x7bA\x7d\x7d" (by decide)

/-- Claim C4 counterexample: The claim says empty lines contribute no
Command; in fact `from_multiline_string` builds one Command per line of
`splitlines`, empty lines included: `"a\n\nb"` yields three commands,
not two. -/
theorem spec_c4_counterexample :
    (Task.from_multiline_string "t" "a\n\nb" [("shell", PyVal.vStr "host")]).map
        (fun ts => ts.commands)
      = Except.ok [{ command := "a" }, { command := "" }, { command := "b" }] ∧
    (Task.from_multiline_string "t" "a\n\nb" [("shell", PyVal.vStr "host")]).map
        (fun ts => ts.commands)
      ≠ Except.ok [{ command := "a" }, { command := "b" }] := by decide

/-- Claim C4 amended: A Task constructed from a block of lines carries one
Command per line of the multiline string — EVERY line, empty lines
included — in line order, each holding only the line's text with all
policy fields at their unset defaults. -/
theorem spec_c4_amended (name string : String) (params : PyDict) (t : Task)
    (h : Task.from_multiline_string name string params = Except.ok t) :
    t.commands = (splitlines string).map (fun com => { command := com }) := by
  unfold Task.from_multiline_string Task.load_from_dict at h
  have hc := daciteTask_ok_commands _ _ h
  have hget : pyGet (mapKeys taskKeyMap
      (pySet (pySet params "name" (PyVal.vStr name)) "commands"
        (PyVal.vList
          ((splitlines string).map (fun com => PyVal.vCommand { command := com })))))
      "commands"
      = some (PyVal.vList
          ((splitlines string).map (fun com => PyVal.vCommand { command := com }))) := by
    rw [pyGet_mapKeys]
    exact lastValueFor_pySet_hit taskKeyMap "commands" "commands" _ _
      (by decide) taskKeyMap_to_commands
  have hmm : (splitlines string).map (fun com => PyVal.vCommand { command := com })
      = ((splitlines string).map (fun com => ({ command := com } : Command))).map
          PyVal.vCommand := by
    rw [List.map_map]
    rfl
  rw [hmm] at hget hc
  have hfield := fieldCommandList_of_vCommands _ _ _ hget
  rw [hfield] at hc
  exact (Except.ok.inj hc).symm

/-- Witness for the amended C4 on `"a\n\nb"`. -/
theorem spec_c4_witness :
    ({ name := "t", shell := "host",
       commands := [{ command := "a" }, { command := "" }, { command := "b" }] } : Task).commands
      = (splitlines "a\n\nb").map (fun com => ({ command := com } : Command)) :=
  spec_c4_amended "t" "a\n\nb" [("shell", PyVal.vStr "host")] _ (by decide)

/-- Claim C8 counterexample: The claim says that when the text parses as a
mapping and the merged mapping has a `name`, construction returns a Task;
but `Task.shell` has no dataclass default, so the mapping `{name: "t"}`
— a mapping with `name` — still fails with a missing-value error for
`shell`. -/
theorem spec_c8_counterexample :
    (pyGet (pyUpdate [("name", PyVal.vStr "t")] []) "name").isSome = true ∧
    Task.load_from_yaml (PyVal.vDict [("name", PyVal.vStr "t")]) []
      = Except.error (LoadError.missingValue "shell") := by decide

/-- Claim C8 amended: `load_from_yaml` fails with `yaml.YAMLError` when the
parse is not a mapping, and with the fatal configuration error when the
merged mapping has no `name`; otherwise it builds one Command per entry of
the mapping's `commands` value and hands the record to
`Task.load_from_dict`, which can still fail for other reasons (missing
`shell`, ill-typed fields): on success the task's commands are exactly the
per-entry Commands, one per entry. -/
theorem spec_c8_amended :
    (∀ (obj : PyVal) (ov : PyDict), (∀ d, obj ≠ PyVal.vDict d) →
        Task.load_from_yaml obj ov = Except.error LoadError.yamlError) ∧
    (∀ (d ov : PyDict), pyGet (pyUpdate d ov) "name" = none →
        Task.load_from_yaml (PyVal.vDict d) ov
          = Except.error (LoadError.configError
              "Task description file must at least contain a 'name' field")) ∧
    (∀ (d ov : PyDict) (t : Task),
        Task.load_from_yaml (PyVal.vDict d) ov = Except.ok t →
        ∃ entries cmds, yamlCommandsEntries (pyUpdate d ov) = Except.ok entries ∧
          loadCommands entries = Except.ok cmds ∧
          t.commands = cmds ∧ cmds.length = entries.length) := by
  refine ⟨?_, ?_, ?_⟩
  · intro obj ov hne
    cases obj with
    | vDict d => exact absurd rfl (hne d)
    | vStr s => rfl
    | vInt i => rfl
    | vBool b => rfl
    | vNone => rfl
    | vList xs => rfl
    | vCommand c => rfl
  · intro d ov hn
    have hn' : (pyGet (pyUpdate d ov) "name").isNone = true := by
      rw [hn]; rfl
    simp only [Task.load_from_yaml]
    rw [if_pos hn']
  · intro d ov t h
    simp only [Task.load_from_yaml] at h
    by_cases hn : (pyGet (pyUpdate d ov) "name").isNone = true
    · rw [if_pos hn] at h
      exact absurd h (by simp)
    · rw [if_neg hn] at h
      obtain ⟨entries, hE, h⟩ := exbind_ok h
      obtain ⟨cmds, hC, h⟩ := exbind_ok h
      unfold Task.load_from_dict at h
      have hc := daciteTask_ok_commands _ _ h
      have hget : pyGet (mapKeys taskKeyMap
          (pySet (pyUpdate d ov) "commands"
            (PyVal.vList (cmds.map PyVal.vCommand)))) "commands"
          = some (PyVal.vList (cmds.map PyVal.vCommand)) := by
        rw [pyGet_mapKeys]
        exact lastValueFor_pySet_hit taskKeyMap "commands" "commands" _ _
          (by decide) taskKeyMap_to_commands
      have hfield := fieldCommandList_of_vCommands _ _ _ hget
      rw [hfield] at hc
      exact ⟨entries, cmds, hE, hC, (Except.ok.inj hc).symm,
        loadCommands_length entries cmds hC⟩

/-- Witness for the amended C8 at a concrete well-formed mapping. -/
theorem spec_c8_witness :
    ∃ entries cmds,
      yamlCommandsEntries (pyUpdate [("name", PyVal.vStr "t"), ("shell", PyVal.vStr "host"),
          ("commands", PyVal.vList [PyVal.vStr "echo hi"])] []) = Except.ok entries ∧
      loadCommands entries = Except.ok cmds ∧
      ({ name := "t", shell := "host",
         commands := [{ command := "echo hi" }] } : Task).commands = cmds ∧
      cmds.length = entries.length :=
  spec_c8_amended.2.2
    [("name", PyVal.vStr "t"), ("shell", PyVal.vStr "host"),
      ("commands", PyVal.vList [PyVal.vStr "echo hi"])] [] _ (by decide)

theorem exbind_ok_eq {ε α β : Type} (a : α) (f : α → Except ε β) :
    ((Except.ok a : Except ε α) >>= f) = f a := rfl

theorem fieldStr_of_get (d : PyDict) (k : String) (dflt s : String)
    (h : pyGet d k = some (PyVal.vStr s)) : fieldStr d k dflt = Except.ok s := by
  unfold fieldStr
  rw [h]

theorem fieldOptStr_ok (d : PyDict) (k : String) (dflt : Option String)
    (h : optStrOk (pyGet d k) = true) :
    ∃ r, fieldOptStr d k dflt = Except.ok r := by
  unfold fieldOptStr
  cases hg : pyGet d k with
  | none => exact ⟨dflt, rfl⟩
  | some v =>
      rw [hg] at h
      cases v with
      | vStr s => exact ⟨some s, rfl⟩
      | vNone => exact ⟨none, rfl⟩
      | vInt i => exact absurd h (by simp [optStrOk])
      | vBool b => exact absurd h (by simp [optStrOk])
      | vList xs => exact absurd h (by simp [optStrOk])
      | vDict es => exact absurd h (by simp [optStrOk])
      | vCommand c => exact absurd h (by simp [optStrOk])

theorem fieldOptInt_ok (d : PyDict) (k : String) (dflt : Option Int)
    (h : optIntOk (pyGet d k) = true) :
    ∃ r, fieldOptInt d k dflt = Except.ok r := by
  unfold fieldOptInt
  cases hg : pyGet d k with
  | none => exact ⟨dflt, rfl⟩
  | some v =>
      rw [hg] at h
      cases v with
      | vInt i => exact ⟨some i, rfl⟩
      | vBool b => exact ⟨some (if b then 1 else 0), rfl⟩
      | vNone => exact ⟨none, rfl⟩
      | vStr s => exact absurd h (by simp [optIntOk])
      | vList xs => exact absurd h (by simp [optIntOk])
      | vDict es => exact absurd h (by simp [optIntOk])
      | vCommand c => exact absurd h (by simp [optIntOk])

theorem fieldOptBool_ok (d : PyDict) (k : String) (dflt : Option Bool)
    (h : optBoolOk (pyGet d k) = true) :
    ∃ r, fieldOptBool d k dflt = Except.ok r := by
  unfold fieldOptBool
  cases hg : pyGet d k with
  | none => exact ⟨dflt, rfl⟩
  | some v =>
      rw [hg] at h
      cases v with
      | vBool b => exact ⟨some b, rfl⟩
      | vNone => exact ⟨none, rfl⟩
      | vStr s => exact absurd h (by simp [optBoolOk])
      | vInt i => exact absurd h (by simp [optBoolOk])
      | vList xs => exact absurd h (by simp [optBoolOk])
      | vDict es => exact absurd h (by simp [optBoolOk])
      | vCommand c => exact absurd h (by simp [optBoolOk])

/-- Claim C9 counterexample: The claim quantifies over every mapping lacking
(or with a falsy) `command`; but another, ill-typed entry still fails
construction: `{"timeout": "oops"}` lacks `command` yet raises dacite's
wrong-type error. -/
theorem spec_c9_counterexample :
    pyFalsyGet (pyGet [("timeout", PyVal.vStr "oops")] "command") = true ∧
    Command.load_from_dict (PyVal.vDict [("timeout", PyVal.vStr "oops")])
      = Except.error (LoadError.wrongType "timeout") := by decide

/-- Claim C9 amended: For every mapping whose `command` is absent or falsy
and whose remaining known-field values are well-typed, construction
succeeds and the resulting command text is the empty string: the missing
or falsy `command` itself never causes a construction error. -/
theorem spec_c9_amended (d : PyDict)
    (hcmd : pyFalsyGet (pyGet d "command") = true)
    (h1 : optStrOk (pyGet (mapKeys cmdKeyMap (fillCommandKey d)) "expect") = true)
    (h2 : optIntOk (pyGet (mapKeys cmdKeyMap (fillCommandKey d)) "timeout") = true)
    (h3 : optBoolOk (pyGet (mapKeys cmdKeyMap (fillCommandKey d)) "echo") = true)
    (h4 : optBoolOk (pyGet (mapKeys cmdKeyMap (fillCommandKey d)) "check_exit_code") = true)
    (h5 : optBoolOk (pyGet (mapKeys cmdKeyMap (fillCommandKey d)) "should_fail") = true) :
    ∃ c, Command.load_from_dict (PyVal.vDict d) = Except.ok c ∧ c.command = "" := by
  have hfill : fillCommandKey d = pySet d "command" (PyVal.vStr "") := by
    unfold fillCommandKey
    rw [if_pos hcmd]
  have hcget : pyGet (mapKeys cmdKeyMap (fillCommandKey d)) "command"
      = some (PyVal.vStr "") := by
    rw [hfill, pyGet_mapKeys]
    exact lastValueFor_pySet_hit cmdKeyMap "command" "command" _ _
      (by decide) cmdKeyMap_to_command
  obtain ⟨exp, hexp⟩ := fieldOptStr_ok _ "expect" none h1
  obtain ⟨tmo, htmo⟩ := fieldOptInt_ok _ "timeout" (some (-1)) h2
  obtain ⟨ech, hech⟩ := fieldOptBool_ok _ "echo" none h3
  obtain ⟨cec, hcec⟩ := fieldOptBool_ok _ "check_exit_code" none h4
  obtain ⟨sf, hsf⟩ := fieldOptBool_ok _ "should_fail" none h5
  refine ⟨{ command := "", expect := exp, timeout := tmo, echo := ech,
            check_exit_code := cec, should_fail := sf }, ?_, rfl⟩
  unfold Command.load_from_dict
  show daciteCommand (mapKeys cmdKeyMap (fillCommandKey d)) = _
  unfold daciteCommand
  rw [fieldStr_of_get _ _ _ _ hcget, exbind_ok_eq, hexp, exbind_ok_eq, htmo,
    exbind_ok_eq, hech, exbind_ok_eq, hcec, exbind_ok_eq, hsf, exbind_ok_eq]

/-- Witness for the amended C9: a mapping with no `command` key and one
well-typed hyphen-spelled field loads as an empty command. -/
theorem spec_c9_witness :
    ∃ c, Command.load_from_dict (PyVal.vDict [("should-fail", PyVal.vBool true)])
        = Except.ok c ∧ c.command = "" :=
  spec_c9_amended [("should-fail", PyVal.vBool true)]
    (by decide) (by decide) (by decide) (by decide) (by decide) (by decide)

theorem pyGet_append_ne (d : PyDict) (p : String × PyVal) (key : String)
    (h : p.1 ≠ key) : pyGet (List.append d [p]) key = pyGet d key := by
  unfold pyGet
  rw [List.append_eq, List.find?_append]
  have hone : List.find? (fun q : String × PyVal => q.1 == key) [p] = none := by
    simp [List.find?_cons, beq_eq_false_iff_ne.mpr h]
  rw [hone]
  cases List.find? (fun q : String × PyVal => q.1 == key) d <;> rfl

theorem lastValueFor_append_one (f : String → String) (key : String) (d : PyDict)
    (p : String × PyVal) :
    lastValueFor f key (List.append d [p])
      = if f p.1 == key then some p.2 else lastValueFor f key d := by
  unfold lastValueFor
  rw [List.append_eq, List.reverse_append]
  show Option.map _ (List.find? _ (p :: d.reverse)) = _
  rw [List.find?_cons]
  cases hp : (f p.1 == key) with
  | true => simp [hp]
  | false => simp [hp]

theorem daciteCommand_congr (d1 d2 : PyDict)
    (h : ∀ f ∈ commandFieldNames, pyGet d1 f = pyGet d2 f) :
    daciteCommand d1 = daciteCommand d2 := by
  have e1 := h "command" (by decide)
  have e2 := h "expect" (by decide)
  have e3 := h "timeout" (by decide)
  have e4 := h "echo" (by decide)
  have e5 := h "check_exit_code" (by decide)
  have e6 := h "should_fail" (by decide)
  unfold daciteCommand fieldStr fieldOptStr fieldOptInt fieldOptBool
  rw [e1, e2, e3, e4, e5, e6]

theorem daciteTask_congr (d1 d2 : PyDict)
    (h : ∀ f ∈ taskFieldNames, pyGet d1 f = pyGet d2 f) :
    daciteTask d1 = daciteTask d2 := by
  have e1 := h "name" (by decide)
  have e2 := h "shell" (by decide)
  have e3 := h "requires" (by decide)
  have e4 := h "before" (by decide)
  have e5 := h "echo" (by decide)
  have e6 := h "timeout" (by decide)
  have e7 := h "fail_fast" (by decide)
  have e8 := h "check_exit_code" (by decide)
  have e9 := h "should_fail" (by decide)
  have e10 := h "sleep" (by decide)
  have e11 := h "disabled" (by decide)
  have e12 := h "commands" (by decide)
  have e13 := h "vars" (by decide)
  unfold daciteTask fieldStrReq fieldStrList fieldBool fieldOptInt fieldInt
    fieldCommandList fieldStrDict
  rw [e1, e2, e3, e4, e5, e6, e7, e8, e9, e10, e11, e12, e13]

theorem contains_ne_of_contains_false (l : List String) (a b : String)
    (ha : l.contains a = true) (hb : l.contains b = false) : b ≠ a := by
  intro hcon
  rw [hcon, ha] at hb
  exact Bool.noConfusion hb

theorem mapped_get_unknown_append_cmd (d : PyDict) (k : String) (v : PyVal)
    (key : String) (hkey : commandFieldNames.contains key = true)
    (hk : commandFieldNames.contains (cmdKeyMap k) = false) :
    pyGet (mapKeys cmdKeyMap (fillCommandKey (List.append d [(k, v)]))) key
      = pyGet (mapKeys cmdKeyMap (fillCommandKey d)) key := by
  have hne : cmdKeyMap k ≠ key := contains_ne_of_contains_false _ _ _ hkey hk
  have hkcmd : k ≠ "command" := by
    intro hcon
    rw [hcon] at hk
    exact Bool.noConfusion ((by decide :
      commandFieldNames.contains (cmdKeyMap "command") = true) ▸ hk)
  have hfget : pyGet (List.append d [(k, v)]) "command" = pyGet d "command" :=
    pyGet_append_ne d (k, v) "command" hkcmd
  have hkb : (cmdKeyMap k == key) = false := beq_eq_false_iff_ne.mpr hne
  unfold fillCommandKey
  rw [hfget]
  by_cases hc : pyFalsyGet (pyGet d "command") = true
  · rw [if_pos hc, if_pos hc, pyGet_mapKeys, pyGet_mapKeys]
    by_cases hkc : key = "command"
    · rw [hkc]
      rw [lastValueFor_pySet_hit cmdKeyMap "command" "command" _ _
          (by decide) cmdKeyMap_to_command,
        lastValueFor_pySet_hit cmdKeyMap "command" "command" _ _
          (by decide) cmdKeyMap_to_command]
    · have hck : cmdKeyMap "command" ≠ key := by
        intro hcon
        exact hkc (hcon.symm.trans (by decide))
      rw [lastValueFor_pySet_miss cmdKeyMap key "command" _ _ hck,
        lastValueFor_pySet_miss cmdKeyMap key "command" _ _ hck,
        lastValueFor_append_one, hkb, if_neg (by simp)]
  · rw [if_neg hc, if_neg hc, pyGet_mapKeys, pyGet_mapKeys,
      lastValueFor_append_one, hkb, if_neg (by simp)]

theorem mapped_get_unknown_append_task (d : PyDict) (k : String) (v : PyVal)
    (key : String) (hkey : taskFieldNames.contains key = true)
    (hk : taskFieldNames.contains (taskKeyMap k) = false) :
    pyGet (mapKeys taskKeyMap (List.append d [(k, v)])) key
      = pyGet (mapKeys taskKeyMap d) key := by
  have hne : taskKeyMap k ≠ key := contains_ne_of_contains_false _ _ _ hkey hk
  have hkb : (taskKeyMap k == key) = false := beq_eq_false_iff_ne.mpr hne
  rw [pyGet_mapKeys, pyGet_mapKeys, lastValueFor_append_one, hkb, if_neg (by simp)]

/-- Claim C5 counterexample: The claim says an unknown key is a construction
error; but dacite's default configuration is non-strict and silently
ignores unknown keys: `{"command": "x", "bogus": "y"}` loads
successfully. -/
theorem spec_c5_counterexample :
    commandFieldNames.contains (cmdKeyMap "bogus") = false ∧
    Command.load_from_dict
        (PyVal.vDict [("command", PyVal.vStr "x"), ("bogus", PyVal.vStr "y")])
      = Except.ok { command := "x" } := by decide

/-- Claim C5 amended: Unknown keys are silently ignored, never an error:
appending a binding whose key normalizes to no known field name changes
neither `Command.load_from_dict` nor `Task.load_from_dict`. -/
theorem spec_c5_amended :
    (∀ (d : PyDict) (k : String) (v : PyVal),
        commandFieldNames.contains (cmdKeyMap k) = false →
        Command.load_from_dict (PyVal.vDict (List.append d [(k, v)]))
          = Command.load_from_dict (PyVal.vDict d)) ∧
    (∀ (d : PyDict) (k : String) (v : PyVal),
        taskFieldNames.contains (taskKeyMap k) = false →
        Task.load_from_dict (List.append d [(k, v)]) = Task.load_from_dict d) := by
  constructor
  · intro d k v hk
    unfold Command.load_from_dict
    show daciteCommand (mapKeys cmdKeyMap (fillCommandKey (List.append d [(k, v)])))
      = daciteCommand (mapKeys cmdKeyMap (fillCommandKey d))
    exact daciteCommand_congr _ _
      (fun f hf => mapped_get_unknown_append_cmd d k v f (by simpa using hf) hk)
  · intro d k v hk
    unfold Task.load_from_dict
    exact daciteTask_congr _ _
      (fun f hf => mapped_get_unknown_append_task d k v f (by simpa using hf) hk)

/-- Witness for the amended C5: adding `bogus` to a record leaves the
constructed Command unchanged. -/
theorem spec_c5_witness :
    Command.load_from_dict
        (PyVal.vDict (List.append [("command", PyVal.vStr "x")] [("bogus", PyVal.vStr "y")]))
      = Command.load_from_dict (PyVal.vDict [("command", PyVal.vStr "x")]) :=
  spec_c5_amended.1 [("command", PyVal.vStr "x")] "bogus" (PyVal.vStr "y") (by decide)

end RenodeAction

